import Mathlib

/-!
Verification development for the `build-lua` automation script
(`build_lua.py` together with `log_config.py`).

The script is a linear build pipeline over the filesystem and child
processes.  We embed it shallowly: paths are lists of components, the
filesystem is an explicit association list of files plus a list of
directories, child processes and the network are oracles supplied in a
`World` record, and every fallible operation returns `Except Err _`.
-/

namespace LuaBuild

/-- A filesystem path, as a list of components (no separators). -/
abbrev Path := List String

/-- A filesystem snapshot: files (path, content) and directories.
`fileContent` reads the first binding of a path, so earlier entries win. -/
structure FS where
  files : List (Path × String)
  dirs : List Path
deriving DecidableEq

/-- Content of the file at `p`, if any. -/
def fileContent (fs : FS) (p : Path) : Option String :=
  (fs.files.find? (fun e => e.1 == p)).map (fun e => e.2)

/-- Whether a file exists at `p`. -/
def fileExists (fs : FS) (p : Path) : Bool :=
  (fileContent fs p).isSome

/-- Whether a directory exists at `p`. -/
def dirExists (fs : FS) (p : Path) : Bool :=
  decide (p ∈ fs.dirs)

/-- Python `Path.exists()`: true for files and directories alike. -/
def pathExists (fs : FS) (p : Path) : Bool :=
  fileExists fs p || dirExists fs p

/-- Write (create or overwrite) the file at `p`. -/
def writeFile (fs : FS) (p : Path) (c : String) : FS :=
  { fs with files := (p, c) :: fs.files.filter (fun e => !(e.1 == p)) }

/-- Boolean path-component ordering test: `pfx p q` holds when `p` is an
initial segment of `q` (so `shutil.rmtree p` would delete `q`). -/
def pfx : Path → Path → Bool
  | [], _ => true
  | _ :: _, [] => false
  | a :: p, b :: q => a == b && pfx p q

/-- `shutil.rmtree p`: delete `p` and everything below it. -/
def rmtree (fs : FS) (p : Path) : FS :=
  { files := fs.files.filter (fun e => !(pfx p e.1)),
    dirs := fs.dirs.filter (fun d => !(pfx p d)) }

/-- The name `n` such that `q = p ++ [n]`, i.e. `q` is directly inside `p`. -/
def nameUnder (p q : Path) : Option String :=
  if q.dropLast = p then q.getLast? else none

/-- Files directly inside directory `p`, as (name, content) pairs. -/
def childFiles (fs : FS) (p : Path) : List (String × String) :=
  fs.files.filterMap (fun e => (nameUnder p e.1).map (fun n => (n, e.2)))

/-- Directories directly inside directory `p`, by name. -/
def childDirs (fs : FS) (p : Path) : List String :=
  fs.dirs.filterMap (fun d => nameUnder p d)

/-- Errors raised by the script (uncaught Python exceptions / SystemExit). -/
inductive Err where
  | depMissing : Err
  | buildFailed (code : Int) : Err
  | notExecutable (exe : String) : Err
  | alreadyExists (p : Path) : Err
  | missingFile (p : Path) : Err
  | isADirectory (p : Path) : Err
  | notADirectory (p : Path) : Err
deriving DecidableEq

/-- Human-readable message of an error, as the script prints it. -/
def errMessage : Err → String
  | .depMissing => "Please install TDM-GCC, or add bin directory, with gcc.exe, to PATH."
  | .buildFailed c => "Failed to build Lua with return_code=" ++ toString c ++ "."
  | .notExecutable e => "Lua is not executable: " ++ e ++ "."
  | .alreadyExists _ => "FileExistsError"
  | .missingFile _ => "FileNotFoundError"
  | .isADirectory _ => "IsADirectoryError"
  | .notADirectory _ => "NotADirectoryError"

/-- Result of running a child process with no arguments. -/
inductive ProcResult where
  | notFound : ProcResult
  | exited (code : Int) : ProcResult
deriving DecidableEq

/-- Embeds `is_executable`: `subprocess.check_call([executable])`, catching
`FileNotFoundError` as `false` and `CalledProcessError` (non-zero exit) as
`true`; a zero exit also yields `true`. -/
def is_executable (run : String → ProcResult) (executable : String) : Bool :=
  match run executable with
  | .notFound => false
  | .exited _ => true

/-- Compiler executable name (module constant `GCC`). -/
def GCC : String := "gcc"

/-- Embeds `check_dependencies`: `SystemExit` when gcc is not executable. -/
def check_dependencies (run : String → ProcResult) : Except Err Unit :=
  if is_executable run GCC then .ok () else .error .depMissing

/-- The Lua version the script builds (module constant `version`). -/
def version : String := "5.4.3"

/-- Archive filename `lua-<version>.tar.gz`. -/
def luaArchiveName (v : String) : String :=
  "lua-" ++ v ++ ".tar.gz"

/-- Embeds `download_lua`: fetch the archive unless the path already
exists (`Path.exists()`).  Returns the filesystem, the archive path,
and how many network retrievals were performed (0 or 1). -/
def download_lua (fetch : String → String) (fs : FS) (v : String) :
    FS × Path × Nat :=
  let p : Path := [luaArchiveName v]
  if pathExists fs p then (fs, p, 0)
  else
    (writeFile fs p (fetch ("http://www.lua.org/ftp/" ++ luaArchiveName v)),
     p, 1)

/-- The four leading characters of the source-package glob pattern. -/
def luaPat : List Char := ['l', 'u', 'a', '-']

/-- Glob name test for the module-level `glob.glob` pattern matching names
that begin with the four characters of the Lua source package name. -/
def luaGlobMatch (n : String) : Bool :=
  luaPat.isPrefixOf n.data

/-- Whether `p` lies inside a top-level directory whose name matches the
source-package pattern (those are the trees `clean_lua_source` deletes). -/
def underLuaDir (fs : FS) (p : Path) : Bool :=
  match p.head? with
  | some n => luaGlobMatch n && dirExists fs [n]
  | none => false

/-- Embeds `clean_lua_source`: for every top-level name matching the
source-package pattern that is a directory, `shutil.rmtree` it.
Plain files matching the pattern are not touched. -/
def clean_lua_source (fs : FS) : FS :=
  { files := fs.files.filter (fun e => !(underLuaDir fs e.1)),
    dirs := fs.dirs.filter (fun d => !(underLuaDir fs d)) }

/-- Embeds `build_lua`: run the make tool, `SystemExit` carrying the
return code when it is non-zero. -/
def build_lua (exitCode : Int) : Except Err Unit :=
  if exitCode != 0 then .error (.buildFailed exitCode) else .ok ()

/-- Embeds `check_lua`: `SystemExit` when the built binary is not executable. -/
def check_lua (run : String → ProcResult) (exe : String) : Except Err Unit :=
  if is_executable run exe then .ok () else .error (.notExecutable exe)

/-- Embeds `clean_distribution`: remove the dist directory if it exists
(`rmtree` raises when the existing path is not a directory). -/
def clean_distribution (fs : FS) (dist : Path) : Except Err FS :=
  if pathExists fs dist then
    if dirExists fs dist then .ok (rmtree fs dist)
    else .error (.notADirectory dist)
  else .ok fs

/-- Embeds `Path.mkdir(parents=True, exist_ok=False)`: error when the
target already exists, otherwise create it together with its ancestors. -/
def mkdirParents (fs : FS) (p : Path) : Except Err FS :=
  if pathExists fs p then .error (.alreadyExists p)
  else .ok { fs with dirs := p.inits.filter (fun d => !(d.isEmpty)) ++ fs.dirs }

/-- Glob name test for the doc pattern: a dot anywhere in the name
(`fnmatch` translates the pattern to the regex dot-star, dot, dot-star,
and `pathlib` does not special-case leading dots). -/
def matchDotAny (n : String) : Bool :=
  n.data.contains ('.')

/-- Glob name test for an extension pattern such as the exe/dll ones:
the name ends with the pattern's fixed tail. -/
def matchExt (ext : List Char) (n : String) : Bool :=
  ext.isSuffixOf n.data

/-- The fixed tail of the exe glob pattern. -/
def exePat : List Char := ['.', 'e', 'x', 'e']

/-- The fixed tail of the dll glob pattern. -/
def dllPat : List Char := ['.', 'd', 'l', 'l']

/-- One `for file in dir.glob(pat): shutil.copy2(file, dst)` loop.  The
glob yields matching children in an OS-dependent order; we copy the
matching files in snapshot order and fail (as `copy2` of a directory
raises) whenever some matching child is a directory. -/
def copyMatching (fs : FS) (src dst : Path) (pat : String → Bool) :
    Except Err FS :=
  if ((childDirs fs src).filter pat).isEmpty then
    .ok (((childFiles fs src).filter (fun e => pat e.1)).foldl
      (fun a e => writeFile a (dst ++ [e.1]) e.2) fs)
  else .error (.isADirectory src)

/-- The fixed header list of `create_distribution`. -/
def headerFiles : List String :=
  ["luaconf.h", "lua.h", "lualib.h", "lauxlib.h", "lua.hpp"]

/-- The header-copy loop of `create_distribution`: `shutil.copy2` of each
named file from `srcDir` into `dstDir`, raising on the first one missing. -/
def copyHeaders (srcDir dstDir : Path) : FS → List String → Except Err FS
  | fs, [] => .ok fs
  | fs, h :: rest =>
    match fileContent fs (srcDir ++ [h]) with
    | none => .error (.missingFile (srcDir ++ [h]))
    | some c => copyHeaders srcDir dstDir (writeFile fs (dstDir ++ [h]) c) rest

/-- Embeds `create_distribution`: make doc/bin/include (excluding
pre-existing ones), copy doc files matching the dot glob, copy exe and
dll files from src, then copy the five fixed headers. -/
def create_distribution (fs : FS) (build dist : Path) : Except Err FS :=
  match mkdirParents fs (dist ++ ["doc"]) with
  | .error e => .error e
  | .ok fs1 =>
  match mkdirParents fs1 (dist ++ ["bin"]) with
  | .error e => .error e
  | .ok fs2 =>
  match mkdirParents fs2 (dist ++ ["include"]) with
  | .error e => .error e
  | .ok fs3 =>
  match copyMatching fs3 (build ++ ["doc"]) (dist ++ ["doc"]) matchDotAny with
  | .error e => .error e
  | .ok fs4 =>
  match copyMatching fs4 (build ++ ["src"]) (dist ++ ["bin"]) (matchExt exePat) with
  | .error e => .error e
  | .ok fs5 =>
  match copyMatching fs5 (build ++ ["src"]) (dist ++ ["bin"]) (matchExt dllPat) with
  | .error e => .error e
  | .ok fs6 => copyHeaders (build ++ ["src"]) (dist ++ ["include"]) fs6 headerFiles

/-- Embeds `shutil.copytree src dst`: every entry below `src` is
replicated below `dst`; everything already in the filesystem stays. -/
def copytreeF (fs : FS) (src dst : Path) : FS :=
  { files := fs.files.filterMap (fun e =>
      if pfx src e.1 then some (dst ++ e.1.drop src.length, e.2) else none)
      ++ fs.files,
    dirs := fs.dirs.filterMap (fun d =>
      if pfx src d then some (dst ++ d.drop src.length) else none)
      ++ fs.dirs }

/-- Embeds `install_lua`: remove the install directory if it exists
(`rmtree`, raising when it is not a directory), then `copytree` the
distribution onto it (raising when the distribution is missing). -/
def install_lua (fs : FS) (dist inst : Path) : Except Err FS :=
  if pathExists fs inst then
    if dirExists fs inst then
      if dirExists (rmtree fs inst) dist then
        .ok (copytreeF (rmtree fs inst) dist inst)
      else .error (.missingFile dist)
    else .error (.notADirectory inst)
  else
    if dirExists fs dist then .ok (copytreeF fs dist inst)
    else .error (.missingFile dist)

/-- Windows-style string form of a path (what `str(Path(...))` yields). -/
def pathStr (p : Path) : String :=
  String.intercalate ("\\") p

/-- The external world the script interacts with: the process probe, the
network, the archive unpacker (delegated per the spec), the exit code of
the make invocation, the install directory, and the initial filesystem. -/
structure World where
  run : String → ProcResult
  fetch : String → String
  unpack : FS → Path → FS
  makeExit : Int
  installDir : Path
  fs0 : FS

/-- The stages of the pipeline, in the order `main` runs them. -/
inductive Stage where
  | checkDeps | cleanSource | download | extract | build | verifyBuild
  | cleanDist | package | verifyDist | install
deriving DecidableEq

/-- The fixed linear stage order of the pipeline. -/
def pipelineOrder : List Stage :=
  [.checkDeps, .cleanSource, .download, .extract, .build, .verifyBuild,
   .cleanDist, .package, .verifyDist, .install]

/-- The extracted source tree `lua-<version>`. -/
def build_directory : Path := ["lua-" ++ version]

/-- The distribution tree `dist/lua-<version>`. -/
def distribution_directory : Path := ["dist", "lua-" ++ version]

/-- Embeds `main`: the stages in source order, halting at the first error.
The second component records which stages started executing. -/
def main (w : World) : Except Err FS × List Stage :=
  match check_dependencies w.run with
  | .error e => (.error e, [Stage.checkDeps])
  | .ok _ =>
    let fs1 := clean_lua_source w.fs0
    let dl := download_lua w.fetch fs1 version
    let fs3 := w.unpack dl.1 dl.2.1
    match build_lua w.makeExit with
    | .error e => (.error e, pipelineOrder.take 5)
    | .ok _ =>
    match check_lua w.run (pathStr (build_directory ++ ["src", "lua"])) with
    | .error e => (.error e, pipelineOrder.take 6)
    | .ok _ =>
    match clean_distribution fs3 distribution_directory with
    | .error e => (.error e, pipelineOrder.take 7)
    | .ok fs4 =>
    match create_distribution fs4 build_directory distribution_directory with
    | .error e => (.error e, pipelineOrder.take 8)
    | .ok fs5 =>
    match check_lua w.run (pathStr (distribution_directory ++ ["bin", "lua"])) with
    | .error e => (.error e, pipelineOrder.take 9)
    | .ok _ =>
    match install_lua fs5 distribution_directory w.installDir with
    | .error e => (.error e, pipelineOrder)
    | .ok fs6 => (.ok fs6, pipelineOrder)

/-- The platform reported by `platform.system()`. -/
inductive Platform where
  | windows | linux | other
deriving DecidableEq

/-- Only Windows reaches the pipeline; Linux and everything else raise
`NotImplementedError` in the module-level config block. -/
def supportedPlatform : Platform → Bool
  | .windows => true
  | _ => false

/-- The `logs` directory `log_config.py` creates at import time. -/
def logsPath : Path := ["logs"]

/-- Embeds the import of `log_config`: `logs_path.mkdir(exist_ok=True)`
runs as a module-level statement, creating the logs directory (an error
only when a non-directory entry is already there). -/
def logConfigImport (fs : FS) : Except Err FS :=
  if dirExists fs logsPath then .ok fs
  else if fileExists fs logsPath then .error (.alreadyExists logsPath)
  else .ok { fs with dirs := logsPath :: fs.dirs }

/-- Outcome of the module-level initialization of `build_lua.py`. -/
inductive InitResult where
  | initError (e : Err) (fs : FS) : InitResult
  | unsupportedPlatform (fs : FS) : InitResult
  | ready (fs : FS) (installDir : Path) : InitResult
deriving DecidableEq

/-- Embeds the module-level code of `build_lua.py` in source order: first
the import of `log_config` (which makes the logs directory), then the
platform check that raises `NotImplementedError` off Windows. -/
def module_init (plat : Platform) (appdata : Path) (fs : FS) : InitResult :=
  match logConfigImport fs with
  | .error e => .initError e fs
  | .ok fs1 =>
    match plat with
    | .windows => .ready fs1 (appdata ++ ["Lua"])
    | _ => .unsupportedPlatform fs1

/-! Concrete fixtures used by witnesses and counterexamples. -/

/-- Files of a sample extracted-and-compiled build tree, including a
doc file without a dot in its name. -/
def sampleBuildFiles : List (Path × String) :=
  [ (["lua-5.4.3", "doc", "manual.html"], "man"),
    (["lua-5.4.3", "doc", "README"], "readme"),
    (["lua-5.4.3", "src", "lua.exe"], "LUAEXE"),
    (["lua-5.4.3", "src", "lua54.dll"], "DLL"),
    (["lua-5.4.3", "src", "luaconf.h"], "h1"),
    (["lua-5.4.3", "src", "lua.h"], "h2"),
    (["lua-5.4.3", "src", "lualib.h"], "h3"),
    (["lua-5.4.3", "src", "lauxlib.h"], "h4"),
    (["lua-5.4.3", "src", "lua.hpp"], "h5") ]

/-- Directories of the sample build tree. -/
def sampleBuildDirs : List Path :=
  [["lua-5.4.3"], ["lua-5.4.3", "doc"], ["lua-5.4.3", "src"]]

/-- A sample filesystem holding just the build tree. -/
def sampleBuildFS : FS :=
  { files := sampleBuildFiles, dirs := sampleBuildDirs }

/-- A world in which every external interaction succeeds: gcc and lua
probe fine, the build exits 0, and unpacking produces the build tree. -/
def sampleWorld : World where
  run := fun _ => .exited 0
  fetch := fun _ => "ARCHIVE"
  unpack := fun fs _ =>
    { fs with files := sampleBuildFiles ++ fs.files,
              dirs := sampleBuildDirs ++ fs.dirs }
  makeExit := 0
  installDir := ["Roaming", "Lua"]
  fs0 := { files := [], dirs := [] }

/-- The sample build tree together with a stale, already-populated
distribution tree from a previous run. -/
def fsRepack : FS :=
  { files := (["dist", "lua-5.4.3", "doc", "stale.html"], "old")
      :: sampleBuildFiles,
    dirs := [["dist"], ["dist", "lua-5.4.3"], ["dist", "lua-5.4.3", "doc"],
             ["dist", "lua-5.4.3", "bin"], ["dist", "lua-5.4.3", "include"]]
      ++ sampleBuildDirs }

/-- The empty filesystem. -/
def fsEmpty : FS := { files := [], dirs := [] }

/-- The filesystem holding only the created logs directory. -/
def fsLogs : FS := { files := [], dirs := [["logs"]] }

/-- A filesystem with a cached source archive, an extracted source
directory, and an unrelated directory. -/
def fsCleanDemo : FS :=
  { files := [(["lua-5.4.3.tar.gz"], "cached")],
    dirs := [["lua-5.4.3"], ["keep"]] }

/-- A filesystem with a packaged distribution and an old install
directory containing a sentinel file. -/
def fsInstallDemo : FS :=
  { files := [(["dist", "lua-5.4.3", "bin", "lua.exe"], "exe"),
              (["Roaming", "Lua", "sentinel.txt"], "old")],
    dirs := [["dist"], ["dist", "lua-5.4.3"], ["dist", "lua-5.4.3", "bin"],
             ["Roaming", "Lua"]] }

/-! Basic lemmas about path ordering, directory membership and lookup. -/

theorem pfx_iff (p q : Path) : pfx p q = true ↔ ∃ r, q = p ++ r := by
  induction p generalizing q with
  | nil => simp [pfx]
  | cons a p ih =>
    cases q with
    | nil => simp [pfx]
    | cons b q =>
      simp only [pfx, Bool.and_eq_true, beq_iff_eq, ih, List.cons_append,
        List.cons.injEq]
      constructor
      · rintro ⟨rfl, r, rfl⟩; exact ⟨r, rfl, rfl⟩
      · rintro ⟨r, rfl, rfl⟩; exact ⟨rfl, r, rfl⟩

theorem pfx_append_self (p r : Path) : pfx p (p ++ r) = true :=
  (pfx_iff p _).mpr ⟨r, rfl⟩

theorem pfx_false_of_head_ne (p q : Path) (hpn : p ≠ [])
    (hp : p.head? ≠ q.head?) : pfx p q = false := by
  cases p with
  | nil => exact absurd rfl hpn
  | cons a p =>
    cases q with
    | nil => rfl
    | cons b q =>
      have hab : a ≠ b := by simpa using hp
      simp [pfx, hab]

theorem head?_append_ne_nil (p t : Path) (hp : p ≠ []) :
    (p ++ t).head? = p.head? := by
  cases p with
  | nil => exact absurd rfl hp
  | cons a p => rfl

theorem ne_of_head?_ne {p r : Path} (h : p.head? ≠ r.head?) : p ≠ r :=
  fun he => h (he ▸ rfl)

theorem ne_of_getLast?_ne {p r : Path} (h : p.getLast? ≠ r.getLast?) : p ≠ r :=
  fun he => h (he ▸ rfl)

theorem ne_concat_of_dropLast_ne {q dst : Path} {m : String}
    (h : q.dropLast ≠ dst) : q ≠ dst ++ [m] :=
  fun he => h (by rw [he, List.dropLast_concat])

theorem find?_key_filter_pos (l : List (Path × String)) (q : Path)
    (g : Path → Bool) (hg : g q = true) :
    (l.filter (fun e => g e.1)).find? (fun e => e.1 == q)
      = l.find? (fun e => e.1 == q) := by
  induction l with
  | nil => rfl
  | cons e l ih =>
    by_cases hx : e.1 = q
    · have hbq : (e.1 == q) = true := beq_iff_eq.mpr hx
      have hge : g e.1 = true := by rw [hx]; exact hg
      simp [List.filter_cons, hge, List.find?_cons, hbq]
    · have hbq : (e.1 == q) = false := by simp [hx]
      by_cases hge : g e.1 = true
      · simp [List.filter_cons, hge, List.find?_cons, hbq, ih]
      · have hge' : g e.1 = false := by simpa using hge
        simp [List.filter_cons, hge', List.find?_cons, hbq, ih]

theorem find?_key_filter_neg (l : List (Path × String)) (q : Path)
    (g : Path → Bool) (hg : g q = false) :
    (l.filter (fun e => g e.1)).find? (fun e => e.1 == q) = none := by
  induction l with
  | nil => rfl
  | cons e l ih =>
    by_cases hx : e.1 = q
    · have hge : g e.1 = false := by rw [hx]; exact hg
      simp [List.filter_cons, hge, ih]
    · have hbq : (e.1 == q) = false := by simp [hx]
      by_cases hge : g e.1 = true
      · simp [List.filter_cons, hge, List.find?_cons, hbq, ih]
      · have hge' : g e.1 = false := by simpa using hge
        simp [List.filter_cons, hge', ih]

theorem fileContent_writeFile (fs : FS) (p q : Path) (c : String) :
    fileContent (writeFile fs p c) q
      = if q = p then some c else fileContent fs q := by
  by_cases h : q = p
  · subst h
    simp [fileContent, writeFile, List.find?_cons]
  · have h1 : (p == q) = false := by simp [Ne.symm h]
    have h2 : (fun k => !(k == p)) q = true := by simp [h]
    simp only [fileContent, writeFile, List.find?_cons, h1, if_neg h]
    rw [find?_key_filter_pos fs.files q (fun k => !(k == p)) h2]

theorem fileContent_rmtree (fs : FS) (p q : Path) :
    fileContent (rmtree fs p) q
      = if pfx p q = true then none else fileContent fs q := by
  by_cases h : pfx p q = true
  · have hg : (fun k => !(pfx p k)) q = false := by simp [h]
    simp only [fileContent, rmtree, if_pos h]
    rw [find?_key_filter_neg fs.files q (fun k => !(pfx p k)) hg]
    rfl
  · have h' : pfx p q = false := by simpa using h
    have hg : (fun k => !(pfx p k)) q = true := by simp [h']
    simp only [fileContent, rmtree, if_neg h]
    rw [find?_key_filter_pos fs.files q (fun k => !(pfx p k)) hg]

theorem dirExists_rmtree_iff (fs : FS) (p d : Path) :
    dirExists (rmtree fs p) d = true
      ↔ dirExists fs d = true ∧ pfx p d = false := by
  simp [dirExists, rmtree, List.mem_filter]

theorem fileContent_clean (fs : FS) (q : Path) (h : underLuaDir fs q = false) :
    fileContent (clean_lua_source fs) q = fileContent fs q := by
  have hg : (fun k => !(underLuaDir fs k)) q = true := by simp [h]
  simp only [fileContent, clean_lua_source]
  rw [find?_key_filter_pos fs.files q (fun k => !(underLuaDir fs k)) hg]

theorem dirExists_clean_iff (fs : FS) (d : Path) :
    dirExists (clean_lua_source fs) d = true
      ↔ dirExists fs d = true ∧ underLuaDir fs d = false := by
  simp [dirExists, clean_lua_source, List.mem_filter]

theorem nameUnder_eq_some (p q : Path) (n : String) :
    nameUnder p q = some n ↔ q = p ++ [n] := by
  constructor
  · intro h
    unfold nameUnder at h
    split at h
    case isTrue hdl =>
      rcases List.eq_nil_or_concat q with rfl | ⟨l, a, rfl⟩
      · cases h
      · rw [List.concat_eq_append] at hdl h ⊢
        rw [List.getLast?_concat] at h
        cases h
        rw [List.dropLast_concat] at hdl
        rw [hdl]
    case isFalse hdl => cases h
  · rintro rfl
    unfold nameUnder
    rw [if_pos (List.dropLast_concat), List.getLast?_concat]

theorem nameUnder_self (p : Path) (n : String) :
    nameUnder p (p ++ [n]) = some n :=
  (nameUnder_eq_some p _ n).mpr rfl

theorem nameUnder_none_of_dropLast_ne (p q : Path) (h : q.dropLast ≠ p) :
    nameUnder p q = none := by
  unfold nameUnder
  rw [if_neg h]

theorem nameUnder_none_of_head_ne (p d : Path) (hp : p ≠ [])
    (hd : d.head? ≠ p.head?) : nameUnder p d = none := by
  cases h : nameUnder p d with
  | none => rfl
  | some n =>
    have := (nameUnder_eq_some p d n).mp h
    subst this
    rw [head?_append_ne_nil p [n] hp] at hd
    exact absurd rfl hd

theorem filterMap_filter_of_none {α β : Type} (f : α → Option β)
    (g : α → Bool) (l : List α)
    (h : ∀ e ∈ l, g e = false → f e = none) :
    (l.filter g).filterMap f = l.filterMap f := by
  induction l with
  | nil => rfl
  | cons e l ih =>
    have htail := ih (fun x hx => h x (List.mem_cons_of_mem e hx))
    by_cases hg : g e = true
    · simp [List.filter_cons, hg, List.filterMap_cons, htail]
    · have hge : g e = false := by simpa using hg
      have hfe : f e = none := h e (List.mem_cons_self e l) hge
      simp [List.filter_cons, hge, List.filterMap_cons, hfe, htail]

theorem filterMap_append_none {α β : Type} (f : α → Option β)
    (l₁ l₂ : List α) (h : ∀ e ∈ l₁, f e = none) :
    (l₁ ++ l₂).filterMap f = l₂.filterMap f := by
  rw [List.filterMap_append, List.filterMap_eq_nil_iff.mpr h, List.nil_append]

theorem foldl_write_content_notin (l : List (String × String)) (dst : Path)
    (q : Path) (h : ∀ e ∈ l, q ≠ dst ++ [e.1]) (fs : FS) :
    fileContent (l.foldl (fun a e => writeFile a (dst ++ [e.1]) e.2) fs) q
      = fileContent fs q := by
  induction l generalizing fs with
  | nil => rfl
  | cons e l ih =>
    rw [List.foldl_cons, ih (fun x hx => h x (List.mem_cons_of_mem e hx)),
      fileContent_writeFile]
    rw [if_neg (h e (List.mem_cons_self e l))]

theorem foldl_write_content_mem (l : List (String × String)) (dst : Path)
    (n : String) (c : String) (hnd : (l.map Prod.fst).Nodup)
    (hmem : (n, c) ∈ l) (fs : FS) :
    fileContent (l.foldl (fun a e => writeFile a (dst ++ [e.1]) e.2) fs)
      (dst ++ [n]) = some c := by
  induction l generalizing fs with
  | nil => cases hmem
  | cons e l ih =>
    rw [List.foldl_cons]
    rcases List.mem_cons.mp hmem with heq | htail
    · have hnin : n ∉ l.map Prod.fst := by
        rw [← heq] at hnd
        exact (List.nodup_cons.mp hnd).1
      rw [foldl_write_content_notin l dst (dst ++ [n]) ?hne _,
        ← heq, fileContent_writeFile, if_pos rfl]
      case hne =>
        intro x hx he
        have : n = x.1 := by simpa using he
        exact hnin (this ▸ List.mem_map_of_mem Prod.fst hx)
    · exact ih (List.nodup_cons.mp (by simpa using hnd)).2 htail _

theorem foldl_write_dirs (l : List (String × String)) (dst : Path) (fs : FS) :
    (l.foldl (fun a e => writeFile a (dst ++ [e.1]) e.2) fs).dirs = fs.dirs := by
  induction l generalizing fs with
  | nil => rfl
  | cons e l ih => rw [List.foldl_cons, ih]; rfl

theorem childFiles_writeFile_ne (fs : FS) (q : Path) (c : String) (p : Path)
    (h : q.dropLast ≠ p) :
    childFiles (writeFile fs q c) p = childFiles fs p := by
  unfold childFiles writeFile
  simp only [List.filterMap_cons, nameUnder_none_of_dropLast_ne p q h,
    Option.map_none']
  exact filterMap_filter_of_none _ _ _ (fun e _ hg => by
    have : e.1 = q := by simpa using hg
    rw [this, nameUnder_none_of_dropLast_ne p q h]; rfl)

theorem foldl_write_childFiles (l : List (String × String)) (dst p : Path)
    (h : dst ≠ p) (fs : FS) :
    childFiles (l.foldl (fun a e => writeFile a (dst ++ [e.1]) e.2) fs) p
      = childFiles fs p := by
  induction l generalizing fs with
  | nil => rfl
  | cons e l ih =>
    rw [List.foldl_cons, ih, childFiles_writeFile_ne]
    rw [List.dropLast_concat]
    exact h

theorem childFiles_eq_of_files_eq (fs fs' : FS) (h : fs'.files = fs.files)
    (p : Path) : childFiles fs' p = childFiles fs p := by
  unfold childFiles
  rw [h]

theorem childDirs_eq_of_dirs_eq (fs fs' : FS) (h : fs'.dirs = fs.dirs)
    (p : Path) : childDirs fs' p = childDirs fs p := by
  unfold childDirs
  rw [h]

theorem mem_childFiles_of_fileContent (fs : FS) (p : Path) (n : String)
    (c : String) (h : fileContent fs (p ++ [n]) = some c) :
    (n, c) ∈ childFiles fs p := by
  unfold fileContent at h
  cases hf : fs.files.find? (fun e => e.1 == p ++ [n]) with
  | none => rw [hf] at h; cases h
  | some e =>
    rw [hf] at h
    simp only [Option.map_some', Option.some.injEq] at h
    have hmem := List.mem_of_find?_eq_some hf
    have hkey : e.1 = p ++ [n] := by simpa using List.find?_some hf
    unfold childFiles
    refine List.mem_filterMap.mpr ⟨e, hmem, ?_⟩
    rw [hkey, nameUnder_self, Option.map_some', h]

theorem childFiles_names_nodup (fs : FS) (p : Path)
    (h : (fs.files.map Prod.fst).Nodup) :
    ((childFiles fs p).map Prod.fst).Nodup := by
  unfold childFiles
  rw [List.map_filterMap]
  have heq : (fun e : Path × String =>
      ((nameUnder p e.1).map (fun n => (n, e.2))).map Prod.fst)
      = fun e : Path × String => nameUnder p e.1 := by
    funext e
    cases nameUnder p e.1 <;> rfl
  rw [heq]
  have h2 : fs.files.filterMap (fun e : Path × String => nameUnder p e.1)
      = (fs.files.map Prod.fst).filterMap (nameUnder p) := by
    rw [List.filterMap_map]
    rfl
  rw [h2]
  refine List.Nodup.filterMap ?_ h
  intro a a' b hb hb'
  have ha := (nameUnder_eq_some p a b).mp hb
  have ha' := (nameUnder_eq_some p a' b).mp hb'
  rw [ha, ha']

theorem mkdirParents_ok (fs fs' : FS) (p : Path)
    (h : mkdirParents fs p = .ok fs') :
    pathExists fs p = false ∧ fs'.files = fs.files
      ∧ fs'.dirs = p.inits.filter (fun d => !(d.isEmpty)) ++ fs.dirs := by
  unfold mkdirParents at h
  split at h
  next hpe => cases h
  next hpe => cases h; exact ⟨by simpa using hpe, rfl, rfl⟩

theorem pathExists_mkdir_mono (fs fs' : FS) (p q : Path)
    (h : mkdirParents fs p = .ok fs') (hq : pathExists fs q = true) :
    pathExists fs' q = true := by
  obtain ⟨-, hfiles, hdirs⟩ := mkdirParents_ok fs fs' p h
  unfold pathExists fileExists fileContent dirExists at hq ⊢
  rw [hfiles, hdirs]
  rw [Bool.or_eq_true] at hq ⊢
  rcases hq with hf | hd
  · exact Or.inl hf
  · refine Or.inr ?_
    simp only [decide_eq_true_eq] at hd ⊢
    exact List.mem_append.mpr (Or.inr hd)

theorem mkdir_ok_self_mem (fs fs' : FS) (p : Path) (hp : p ≠ [])
    (h : mkdirParents fs p = .ok fs') : dirExists fs' p = true := by
  obtain ⟨-, -, hdirs⟩ := mkdirParents_ok fs fs' p h
  unfold dirExists
  rw [hdirs]
  simp only [decide_eq_true_eq, List.mem_append, List.mem_filter,
    List.mem_inits]
  exact Or.inl ⟨⟨[], List.append_nil p⟩, by simpa using hp⟩

theorem copyMatching_ok (fs fs' : FS) (src dst : Path) (pat : String → Bool)
    (h : copyMatching fs src dst pat = .ok fs') :
    ((childDirs fs src).filter pat).isEmpty = true
      ∧ fs' = ((childFiles fs src).filter (fun e => pat e.1)).foldl
          (fun a e => writeFile a (dst ++ [e.1]) e.2) fs := by
  unfold copyMatching at h
  split at h
  next hc => cases h; exact ⟨hc, rfl⟩
  next hc => cases h

theorem copyHeaders_ok_content (srcDir dstDir : Path) (hs : List String)
    (fs fs' : FS) (q : Path) (h : copyHeaders srcDir dstDir fs hs = .ok fs')
    (hq : ∀ x ∈ hs, q ≠ dstDir ++ [x]) :
    fileContent fs' q = fileContent fs q := by
  induction hs generalizing fs with
  | nil => cases h; rfl
  | cons a hs ih =>
    unfold copyHeaders at h
    cases hfc : fileContent fs (srcDir ++ [a]) with
    | none => rw [hfc] at h; cases h
    | some c =>
      rw [hfc] at h
      rw [ih _ h (fun x hx => hq x (List.mem_cons_of_mem a hx)),
        fileContent_writeFile, if_neg (hq a (List.mem_cons_self a hs))]

theorem copyHeaders_dirs (srcDir dstDir : Path) (hs : List String)
    (fs fs' : FS) (h : copyHeaders srcDir dstDir fs hs = .ok fs') :
    fs'.dirs = fs.dirs := by
  induction hs generalizing fs with
  | nil => cases h; rfl
  | cons a hs ih =>
    unfold copyHeaders at h
    cases hfc : fileContent fs (srcDir ++ [a]) with
    | none => rw [hfc] at h; cases h
    | some c =>
      rw [hfc] at h
      exact ih (writeFile fs (dstDir ++ [a]) c) h

theorem copyHeaders_missing (srcDir dstDir : Path) (hs : List String)
    (fs : FS) (hne : srcDir ≠ dstDir)
    (hmiss : ∃ x ∈ hs, fileContent fs (srcDir ++ [x]) = none) :
    (copyHeaders srcDir dstDir fs hs).isOk = false := by
  induction hs generalizing fs with
  | nil => rcases hmiss with ⟨x, hx, -⟩; cases hx
  | cons a hs ih =>
    unfold copyHeaders
    cases hfc : fileContent fs (srcDir ++ [a]) with
    | none => rfl
    | some c =>
      rcases hmiss with ⟨x, hx, hmx⟩
      rcases List.mem_cons.mp hx with rfl | hxs
      · rw [hfc] at hmx; cases hmx
      · refine ih _ ⟨x, hxs, ?_⟩
        rw [fileContent_writeFile,
          if_neg (fun he => hne (by
            have h1 : (srcDir ++ [x]).dropLast = (dstDir ++ [a]).dropLast := by
              rw [he]
            rwa [List.dropLast_concat, List.dropLast_concat] at h1))]
        exact hmx

theorem copyHeaders_ok_of_present (srcDir dstDir : Path) (hs : List String)
    (fs : FS) (hne : srcDir ≠ dstDir)
    (hpres : ∀ x ∈ hs, (fileContent fs (srcDir ++ [x])).isSome = true) :
    (copyHeaders srcDir dstDir fs hs).isOk = true := by
  induction hs generalizing fs with
  | nil => rfl
  | cons a hs ih =>
    unfold copyHeaders
    cases hfc : fileContent fs (srcDir ++ [a]) with
    | none =>
      have := hpres a (List.mem_cons_self a hs)
      rw [hfc] at this
      cases this
    | some c =>
      refine ih _ (fun x hx => ?_)
      rw [fileContent_writeFile,
        if_neg (fun he => hne (by
          have h1 : (srcDir ++ [x]).dropLast = (dstDir ++ [a]).dropLast := by
            rw [he]
          rwa [List.dropLast_concat, List.dropLast_concat] at h1))]
      exact hpres x (List.mem_cons_of_mem a hx)

theorem find?_copies (l : List (Path × String)) (src dst rest : Path) :
    (l.filterMap (fun e => if pfx src e.1
        then some (dst ++ e.1.drop src.length, e.2) else none)).find?
      (fun e => e.1 == dst ++ rest)
    = (l.find? (fun e => e.1 == src ++ rest)).map
        (fun e => ((dst ++ rest : Path), e.2)) := by
  induction l with
  | nil => rfl
  | cons e l ih =>
    by_cases hp : pfx src e.1 = true
    · obtain ⟨t, ht⟩ := (pfx_iff src e.1).mp hp
      have hdrop : e.1.drop src.length = t := by
        rw [ht]
        exact List.drop_left src t
      by_cases hteq : t = rest
      · subst hteq
        simp only [List.filterMap_cons, hp, if_true, hdrop, List.find?_cons]
        have h1 : (((dst ++ t : Path), e.2).1 == dst ++ t) = true := by simp
        have h2 : (e.1 == src ++ t) = true := by simp [ht]
        rw [h1, h2]
        rfl
      · simp only [List.filterMap_cons, hp, if_true, hdrop, List.find?_cons]
        have h1 : (((dst ++ t : Path), e.2).1 == dst ++ rest) = false := by
          simp only [beq_eq_false_iff_ne]
          exact fun hh => hteq (by simpa using hh)
        have h2 : (e.1 == src ++ rest) = false := by
          simp only [beq_eq_false_iff_ne, ht]
          exact fun hh => hteq (by simpa using hh)
        rw [h1, h2]
        exact ih
    · have hp' : pfx src e.1 = false := by simpa using hp
      have hne : (e.1 == src ++ rest) = false := by
        simp only [beq_eq_false_iff_ne]
        intro hh
        rw [hh, pfx_append_self] at hp'
        cases hp'
      simp only [List.filterMap_cons, hp', Bool.false_eq_true, if_false,
        List.find?_cons]
      rw [hne]
      exact ih

theorem copytree_fileContent (fs : FS) (src dst rest : Path)
    (hnone : fileContent fs (dst ++ rest) = none) :
    fileContent (copytreeF fs src dst) (dst ++ rest)
      = fileContent fs (src ++ rest) := by
  unfold fileContent at hnone ⊢
  unfold copytreeF
  simp only []
  rw [List.find?_append, find?_copies]
  cases hsrc : fs.files.find? (fun e => e.1 == src ++ rest) with
  | none =>
    simp only [Option.map_none', Option.none_or]
    cases hdst : fs.files.find? (fun e => e.1 == dst ++ rest) with
    | none => rfl
    | some e => rw [hdst] at hnone; cases hnone
  | some e => rfl

theorem fileContent_eq_of_files_eq (fs fs' : FS) (h : fs'.files = fs.files)
    (q : Path) : fileContent fs' q = fileContent fs q := by
  unfold fileContent
  rw [h]

theorem mkdirParents_ok_of_fresh (fs : FS) (p : Path)
    (h : pathExists fs p = false) :
    mkdirParents fs p
      = .ok { fs with dirs := p.inits.filter (fun d => !(d.isEmpty)) ++ fs.dirs } := by
  unfold mkdirParents
  rw [if_neg (by simp [h])]

theorem copyMatching_ok_of_no_dirs (fs : FS) (src dst : Path)
    (pat : String → Bool) (h : ((childDirs fs src).filter pat).isEmpty = true) :
    copyMatching fs src dst pat
      = .ok (((childFiles fs src).filter (fun e => pat e.1)).foldl
          (fun a e => writeFile a (dst ++ [e.1]) e.2) fs) := by
  unfold copyMatching
  rw [if_pos h]

theorem copyMatching_content_outside (fs fs' : FS) (src dst : Path)
    (pat : String → Bool) (hcm : copyMatching fs src dst pat = .ok fs')
    (q : Path) (hq : ∀ m : String, q ≠ dst ++ [m]) :
    fileContent fs' q = fileContent fs q := by
  obtain ⟨-, rfl⟩ := copyMatching_ok _ _ _ _ _ hcm
  exact foldl_write_content_notin _ _ _ (fun e _ => hq e.1) fs

theorem copyMatching_dirs (fs fs' : FS) (src dst : Path)
    (pat : String → Bool) (hcm : copyMatching fs src dst pat = .ok fs') :
    fs'.dirs = fs.dirs := by
  obtain ⟨-, rfl⟩ := copyMatching_ok _ _ _ _ _ hcm
  exact foldl_write_dirs _ _ _

theorem head?_of_mem_inits (d m : Path) (hd : d ≠ []) (h : d <+: m) :
    d.head? = m.head? := by
  obtain ⟨t, rfl⟩ := h
  exact (head?_append_ne_nil d t hd).symm

theorem not_mem_mkdir_inits (dist : Path) (x y : String) (hxy : y ≠ x) :
    (dist ++ [y]) ∉ (dist ++ [x]).inits.filter (fun d => !(d.isEmpty)) := by
  intro hmem
  have h1 : (dist ++ [y]) ∈ (dist ++ [x]).inits :=
    (List.mem_filter.mp hmem).1
  have h2 : (dist ++ [y]) <+: dist ++ [x] := (List.mem_inits _ _).mp h1
  have h3 : (dist ++ [y]) = dist ++ [x] := h2.eq_of_length (by simp)
  exact hxy (by simpa using h3)

theorem fileExists_false_of_content (fs : FS) (p : Path)
    (h : fileContent fs p = none) : fileExists fs p = false := by
  unfold fileExists
  rw [h]
  rfl

theorem pathExists_false_of (fs : FS) (p : Path)
    (h1 : fileExists fs p = false) (h2 : dirExists fs p = false) :
    pathExists fs p = false := by
  unfold pathExists
  rw [h1, h2]
  rfl

theorem dirExists_mkdir_mono (fs fs' : FS) (p q : Path)
    (h : mkdirParents fs p = .ok fs') (hq : dirExists fs q = true) :
    dirExists fs' q = true := by
  obtain ⟨-, -, hdirs⟩ := mkdirParents_ok fs fs' p h
  unfold dirExists at hq ⊢
  rw [hdirs]
  simp only [decide_eq_true_eq] at hq ⊢
  exact List.mem_append.mpr (Or.inr hq)

theorem dirExists_eq_of_dirs_eq (fs fs' : FS) (h : fs'.dirs = fs.dirs)
    (q : Path) : dirExists fs' q = dirExists fs q := by
  unfold dirExists
  rw [h]

theorem rmtree_wipes (fs : FS) (dist r : Path) :
    fileContent (rmtree fs dist) (dist ++ r) = none
    ∧ dirExists (rmtree fs dist) (dist ++ r) = false := by
  constructor
  · rw [fileContent_rmtree, if_pos (pfx_append_self dist r)]
  · cases hx : dirExists (rmtree fs dist) (dist ++ r) with
    | false => rfl
    | true =>
      obtain ⟨-, hpf⟩ := (dirExists_rmtree_iff _ _ _).mp hx
      rw [pfx_append_self] at hpf
      cases hpf

theorem nameUnder_none_head_case (q d : Path) (hqn : q ≠ [])
    (hd : d.head? ≠ q.head?) : nameUnder q d = none := by
  cases hnu : nameUnder q d with
  | none => rfl
  | some m =>
    exfalso
    have hqd := (nameUnder_eq_some _ _ _).mp hnu
    rw [hqd, head?_append_ne_nil q [m] hqn] at hd
    exact hd rfl

theorem childDirs_rmtree_of_head_ne (fs : FS) (dist q : Path)
    (hd : dist ≠ []) (hqn : q ≠ []) (hq : q.head? ≠ dist.head?) :
    childDirs (rmtree fs dist) q = childDirs fs q := by
  unfold childDirs rmtree
  apply filterMap_filter_of_none
  intro d _ hg
  have hpf : pfx dist d = true := by simpa using hg
  obtain ⟨t, rfl⟩ := (pfx_iff _ _).mp hpf
  exact nameUnder_none_head_case q (dist ++ t) hqn
    (by rw [head?_append_ne_nil dist t hd]; exact fun hh => hq hh.symm)

theorem childFiles_rmtree_of_head_ne (fs : FS) (dist q : Path)
    (hd : dist ≠ []) (hqn : q ≠ []) (hq : q.head? ≠ dist.head?) :
    childFiles (rmtree fs dist) q = childFiles fs q := by
  unfold childFiles rmtree
  apply filterMap_filter_of_none
  intro e _ hg
  have hpf : pfx dist e.1 = true := by simpa using hg
  obtain ⟨t, ht⟩ := (pfx_iff _ _).mp hpf
  rw [ht, nameUnder_none_head_case q (dist ++ t) hqn
    (by rw [head?_append_ne_nil dist t hd]; exact fun hh => hq hh.symm)]
  rfl

theorem filterMap_nameUnder_inits (ds : List Path) (dist : Path) (x : String)
    (q : Path) (hd : dist ≠ []) (hqn : q ≠ []) (hq : q.head? ≠ dist.head?) :
    ((dist ++ [x]).inits.filter (fun d => !(d.isEmpty)) ++ ds).filterMap
        (nameUnder q)
      = ds.filterMap (nameUnder q) := by
  apply filterMap_append_none
  intro d hdm
  have h1 : d ∈ (dist ++ [x]).inits := (List.mem_filter.mp hdm).1
  have h2 : d ≠ [] := by
    have := (List.mem_filter.mp hdm).2
    simpa using this
  have h3 : d <+: dist ++ [x] := (List.mem_inits _ _).mp h1
  have h4 : d.head? = dist.head? := by
    rw [head?_of_mem_inits d (dist ++ [x]) h2 h3]
    exact head?_append_ne_nil dist [x] hd
  exact nameUnder_none_head_case q d hqn
    (by rw [h4]; exact fun hh => hq hh.symm)

theorem foldl_write_content_head_ne (l : List (String × String))
    (dist : Path) (x : String) (q : Path) (hd : dist ≠ [])
    (hq : q.head? ≠ dist.head?) (fs : FS) :
    fileContent (l.foldl
        (fun a e => writeFile a ((dist ++ [x]) ++ [e.1]) e.2) fs) q
      = fileContent fs q := by
  apply foldl_write_content_notin
  intro e _
  refine ne_of_head?_ne ?_
  rw [head?_append_ne_nil (dist ++ [x]) [e.1] (by simp),
    head?_append_ne_nil dist [x] hd]
  exact hq

/-! The claim theorems. -/

/-- C1: `main` runs the stages in the fixed linear order of
`pipelineOrder`; the executed stages always form an initial segment of
that order starting with the dependency check (so the dependency check
runs before any download or build work), a fatal failure halts the run
with no later stage executing, and a run that succeeds has executed all
stages. -/
theorem main_pipeline_order (w : World) :
    (main w).2 <+: pipelineOrder
    ∧ (main w).2.head? = some Stage.checkDeps
    ∧ ((main w).1.isOk = true → (main w).2 = pipelineOrder) := by
  have hpre : ∀ k : Nat, pipelineOrder.take k <+: pipelineOrder :=
    fun k => ⟨pipelineOrder.drop k, List.take_append_drop k pipelineOrder⟩
  simp only [main]
  split
  · exact ⟨hpre 1, rfl, fun h => Bool.noConfusion h⟩
  · split
    · exact ⟨hpre 5, rfl, fun h => Bool.noConfusion h⟩
    · split
      · exact ⟨hpre 6, rfl, fun h => Bool.noConfusion h⟩
      · split
        · exact ⟨hpre 7, rfl, fun h => Bool.noConfusion h⟩
        · split
          · exact ⟨hpre 8, rfl, fun h => Bool.noConfusion h⟩
          · split
            · exact ⟨hpre 9, rfl, fun h => Bool.noConfusion h⟩
            · split
              · exact ⟨hpre 10, rfl, fun h => Bool.noConfusion h⟩
              · exact ⟨hpre 10, rfl, fun _ => rfl⟩

/-- C1 witness: in a world where every interaction succeeds, the run
succeeds and the trace is the whole pipeline. -/
theorem main_pipeline_order_witness :
    (main sampleWorld).1.isOk = true ∧ (main sampleWorld).2 = pipelineOrder :=
  ⟨by decide, (main_pipeline_order sampleWorld).2.2 (by decide)⟩

/-- C2: `is_executable` returns true exactly when the executable can be
located (the spawn does not raise FileNotFoundError): a located process
that exits with any code, zero or not, counts as present, and only a
process that cannot be found counts as absent. -/
theorem is_executable_presence (run : String → ProcResult) (e : String) :
    (is_executable run e = true ↔ run e ≠ ProcResult.notFound)
    ∧ (∀ c : Int, run e = ProcResult.exited c → is_executable run e = true)
    ∧ (run e = ProcResult.notFound → is_executable run e = false) := by
  refine ⟨⟨fun h hn => ?_, fun h => ?_⟩, fun c hc => ?_, fun hn => ?_⟩
  · unfold is_executable at h
    rw [hn] at h
    cases h
  · unfold is_executable
    cases hr : run e with
    | notFound => exact absurd hr h
    | exited c => rfl
  · unfold is_executable
    rw [hc]
  · unfold is_executable
    rw [hn]

/-- C2 witness: a probe that exits 1 still counts as present, and a
missing probe counts as absent. -/
theorem is_executable_presence_witness :
    is_executable (fun _ => ProcResult.exited 1) GCC = true
    ∧ is_executable (fun _ => ProcResult.notFound) GCC = false :=
  ⟨(is_executable_presence (fun _ => ProcResult.exited 1) GCC).2.1 1 rfl,
   (is_executable_presence (fun _ => ProcResult.notFound) GCC).2.2 rfl⟩

/-- C4: the build stage succeeds only on exit 0; any non-zero exit code
becomes a fatal error carrying that exit code (and its printed message
contains the code), and in any world whose make invocation exits
non-zero the pipeline never reaches the packaging stage. -/
theorem build_lua_nonzero_fatal (c : Int) :
    build_lua 0 = .ok ()
    ∧ (c ≠ 0 → build_lua c = .error (.buildFailed c)
        ∧ ∃ pre post, errMessage (Err.buildFailed c) = pre ++ toString c ++ post)
    ∧ (∀ w : World, w.makeExit ≠ 0 → Stage.package ∉ (main w).2) := by
  refine ⟨rfl, fun hc => ⟨by simp [build_lua, hc], ?_⟩, fun w hw => ?_⟩
  · exact ⟨"Failed to build Lua with return_code=", ".", rfl⟩
  · have hb : build_lua w.makeExit = .error (.buildFailed w.makeExit) := by
      simp [build_lua, hw]
    unfold main
    cases hd : check_dependencies w.run with
    | error e =>
      show Stage.package ∉ [Stage.checkDeps]
      decide
    | ok u =>
      rw [hb]
      show Stage.package ∉ pipelineOrder.take 5
      decide

/-- C4 witness: exit code 2 produces the fatal error carrying 2, and a
world whose make exits 2 never reaches packaging. -/
theorem build_lua_nonzero_fatal_witness :
    build_lua 2 = .error (.buildFailed 2)
    ∧ Stage.package ∉ (main { sampleWorld with makeExit := 2 }).2 :=
  ⟨((build_lua_nonzero_fatal 2).2.1 (by decide)).1,
   (build_lua_nonzero_fatal 2).2.2 { sampleWorld with makeExit := 2 }
     (by decide)⟩

/-- C7: when the archive file is already present, `download_lua`
performs no network retrieval and leaves the filesystem unchanged; and
a second acquisition right after a first one always performs zero
retrievals and changes nothing. -/
theorem download_lua_cached (fetch : String → String) (fs : FS) (v : String) :
    (fileExists fs [luaArchiveName v] = true →
      download_lua fetch fs v = (fs, [luaArchiveName v], 0))
    ∧ download_lua fetch (download_lua fetch fs v).1 v
        = ((download_lua fetch fs v).1, [luaArchiveName v], 0) := by
  constructor
  · intro hf
    have hp : pathExists fs [luaArchiveName v] = true := by
      unfold pathExists
      rw [hf]
      rfl
    simp [download_lua, hp]
  · by_cases hp : pathExists fs [luaArchiveName v] = true
    · simp [download_lua, hp]
    · have hp' : pathExists fs [luaArchiveName v] = false := by simpa using hp
      have hgen : ∀ s : String,
          pathExists (writeFile fs [luaArchiveName v] s) [luaArchiveName v]
            = true := by
        intro s
        unfold pathExists fileExists
        rw [fileContent_writeFile, if_pos rfl]
        rfl
      simp [download_lua, hp', hgen]

/-- C7 witness: with the archive cached, acquisition returns the
filesystem unchanged with zero retrievals. -/
theorem download_lua_cached_witness :
    download_lua (fun _ => "NET") fsCleanDemo version
      = (fsCleanDemo, [luaArchiveName version], 0) :=
  (download_lua_cached (fun _ => "NET") fsCleanDemo version).1 (by decide)

/-- C9: cleaning the source area removes exactly the top-level
directories matching the source-package pattern: any top-level plain
file keeps its content (in particular any cached archive, so cleaning
never invalidates the download cache), any path not inside a matching
directory keeps its content, and matching directories are removed. -/
theorem clean_lua_source_spares_files (fs : FS) :
    (∀ n : String, dirExists fs [n] = false →
      fileContent (clean_lua_source fs) [n] = fileContent fs [n])
    ∧ (∀ p : Path, underLuaDir fs p = false →
      fileContent (clean_lua_source fs) p = fileContent fs p)
    ∧ (∀ n : String, luaGlobMatch n = true → dirExists fs [n] = true →
      dirExists (clean_lua_source fs) [n] = false)
    ∧ (∀ v : String, dirExists fs [luaArchiveName v] = false →
      fileContent (clean_lua_source fs) [luaArchiveName v]
        = fileContent fs [luaArchiveName v]) := by
  have h1 : ∀ n : String, dirExists fs [n] = false →
      fileContent (clean_lua_source fs) [n] = fileContent fs [n] := by
    intro n hn
    exact fileContent_clean fs [n] (by simp [underLuaDir, hn])
  refine ⟨h1, fun p hp => fileContent_clean fs p hp, ?_, fun v hv => h1 _ hv⟩
  intro n hm hd
  cases hdc : dirExists (clean_lua_source fs) [n] with
  | false => rfl
  | true =>
    obtain ⟨-, hu⟩ := (dirExists_clean_iff fs [n]).mp hdc
    rw [show underLuaDir fs [n] = true from by simp [underLuaDir, hm, hd]] at hu
    cases hu

/-- C9 witness: on a filesystem with a cached archive and an extracted
source directory, cleaning keeps the archive and removes the directory. -/
theorem clean_lua_source_spares_files_witness :
    fileContent (clean_lua_source fsCleanDemo) [luaArchiveName version]
      = fileContent fsCleanDemo [luaArchiveName version]
    ∧ dirExists (clean_lua_source fsCleanDemo) ["lua-5.4.3"] = false :=
  ⟨(clean_lua_source_spares_files fsCleanDemo).1 _ (by decide),
   (clean_lua_source_spares_files fsCleanDemo).2.2.1 _ (by decide) (by decide)⟩

/-- C8 counterexample: on an unsupported platform the module does fail
immediately, but not before all side effects: starting from an empty
filesystem, initialization on Linux raises the unsupported-platform
error only after the import of the logging configuration has created
the logs directory, a filesystem state change. -/
theorem module_init_side_effect_cex :
    module_init Platform.linux ["AppData"] fsEmpty
      = InitResult.unsupportedPlatform fsLogs
    ∧ dirExists fsEmpty logsPath = false
    ∧ dirExists fsLogs logsPath = true := by
  exact ⟨by decide, by decide, by decide⟩

/-- C8 (amended): on an unsupported platform the run fails fatally
during module initialization, before any pipeline stage executes, and
the only state change that precedes the error is the logging setup
creating the logs directory: no file content changes, no directory
other than the logs directory is created, and no existing entry is
removed. -/
theorem module_init_unsupported (plat : Platform) (appdata : Path)
    (fs fs1 : FS) (hplat : supportedPlatform plat = false)
    (himp : logConfigImport fs = .ok fs1) :
    module_init plat appdata fs = .unsupportedPlatform fs1
    ∧ (∀ p, fileContent fs1 p = fileContent fs p)
    ∧ dirExists fs1 logsPath = true
    ∧ (∀ d, d ≠ logsPath → dirExists fs1 d = dirExists fs d) := by
  have hmod : module_init plat appdata fs = .unsupportedPlatform fs1 := by
    unfold module_init
    rw [himp]
    cases plat with
    | windows => exact Bool.noConfusion hplat
    | linux => rfl
    | other => rfl
  unfold logConfigImport at himp
  split at himp
  next hdir =>
    cases himp
    exact ⟨hmod, fun p => rfl, hdir, fun d hd => rfl⟩
  next hdir =>
    split at himp
    next hfile => cases himp
    next hfile =>
      cases himp
      refine ⟨hmod, fun p => rfl, by simp [dirExists, logsPath], fun d hd => ?_⟩
      unfold dirExists
      exact decide_eq_decide.mpr (by simp [List.mem_cons, hd])

/-- C8 amended-claim witness: on Linux with an empty filesystem, the
initialization ends in the unsupported-platform error with the logs
directory as the only change. -/
theorem module_init_unsupported_witness :
    module_init Platform.linux ["AppData"] fsEmpty
      = InitResult.unsupportedPlatform fsLogs
    ∧ fileContent fsLogs ["x"] = fileContent fsEmpty ["x"]
    ∧ dirExists fsLogs logsPath = true :=
  ⟨(module_init_unsupported Platform.linux ["AppData"] fsEmpty fsLogs
      (by decide) (by rfl)).1,
   (module_init_unsupported Platform.linux ["AppData"] fsEmpty fsLogs
      (by decide) (by rfl)).2.1 ["x"],
   (module_init_unsupported Platform.linux ["AppData"] fsEmpty fsLogs
      (by decide) (by rfl)).2.2.1⟩

/-- C5: installation replaces the install directory wholesale: when the
install directory pre-exists (as a directory, disjoint from the
distribution tree) and `install_lua` succeeds, every path below the
install directory afterwards has exactly the content of the
corresponding path below the distribution directory — in particular any
sentinel file of the old install directory, absent from the
distribution, is gone. -/
theorem install_lua_replaces (fs fs' : FS) (dist inst : Path)
    (hd : dist ≠ []) (hi : inst ≠ []) (hne : dist.head? ≠ inst.head?)
    (hinst : dirExists fs inst = true)
    (hok : install_lua fs dist inst = .ok fs') :
    ∀ rest : Path,
      fileContent fs' (inst ++ rest) = fileContent fs (dist ++ rest) := by
  intro rest
  have hpe : pathExists fs inst = true := by
    unfold pathExists
    rw [hinst]
    simp
  unfold install_lua at hok
  rw [if_pos hpe, if_pos hinst] at hok
  cases hdd : dirExists (rmtree fs inst) dist with
  | false => rw [if_neg (by simp [hdd])] at hok; cases hok
  | true =>
    rw [if_pos hdd] at hok
    cases hok
    have hnone : fileContent (rmtree fs inst) (inst ++ rest) = none := by
      rw [fileContent_rmtree, if_pos (pfx_append_self inst rest)]
    rw [copytree_fileContent (rmtree fs inst) dist inst rest hnone,
      fileContent_rmtree]
    rw [if_neg ?_]
    rw [pfx_false_of_head_ne inst (dist ++ rest) hi ?_]
    · simp
    · rw [head?_append_ne_nil dist rest hd]
      exact fun hh => hne (hh ▸ rfl)

/-- C5 witness: installing over a pre-existing install directory with a
sentinel file copies the distribution content and removes the sentinel. -/
theorem install_lua_replaces_witness :
    install_lua fsInstallDemo ["dist", "lua-5.4.3"] ["Roaming", "Lua"]
      = .ok (copytreeF (rmtree fsInstallDemo ["Roaming", "Lua"])
          ["dist", "lua-5.4.3"] ["Roaming", "Lua"])
    ∧ fileContent
        (copytreeF (rmtree fsInstallDemo ["Roaming", "Lua"])
          ["dist", "lua-5.4.3"] ["Roaming", "Lua"])
        ["Roaming", "Lua", "bin", "lua.exe"] = some "exe"
    ∧ fileContent
        (copytreeF (rmtree fsInstallDemo ["Roaming", "Lua"])
          ["dist", "lua-5.4.3"] ["Roaming", "Lua"])
        ["Roaming", "Lua", "sentinel.txt"] = none := by
  refine ⟨by rfl, ?_, ?_⟩
  · have h := install_lua_replaces fsInstallDemo
      (copytreeF (rmtree fsInstallDemo ["Roaming", "Lua"])
        ["dist", "lua-5.4.3"] ["Roaming", "Lua"])
      ["dist", "lua-5.4.3"] ["Roaming", "Lua"]
      (by decide) (by decide) (by decide) (by decide) (by rfl)
      ["bin", "lua.exe"]
    exact h.trans (by decide)
  · have h := install_lua_replaces fsInstallDemo
      (copytreeF (rmtree fsInstallDemo ["Roaming", "Lua"])
        ["dist", "lua-5.4.3"] ["Roaming", "Lua"])
      ["dist", "lua-5.4.3"] ["Roaming", "Lua"]
      (by decide) (by decide) (by decide) (by decide) (by rfl)
      ["sentinel.txt"]
    exact h.trans (by decide)

/-- C3: packaging a build tree in which one of the five required headers
is missing from its src subdirectory fails: `create_distribution` ends
in an error (the copy of the missing header raises), never in success
over a partially populated include directory. -/
theorem create_distribution_missing_header (fs : FS) (build dist : Path)
    (hmiss : ∃ h ∈ headerFiles, fileContent fs (build ++ ["src", h]) = none) :
    (create_distribution fs build dist).isOk = false := by
  unfold create_distribution
  split
  next e h1 => rfl
  next fs1 h1 =>
  split
  next e h2 => rfl
  next fs2 h2 =>
  split
  next e h3 => rfl
  next fs3 h3 =>
  split
  next e h4 => rfl
  next fs4 h4 =>
  split
  next e h5 => rfl
  next fs5 h5 =>
  split
  next e h6 => rfl
  next fs6 h6 =>
  apply copyHeaders_missing
  · refine ne_of_getLast?_ne ?_
    rw [List.getLast?_concat, List.getLast?_concat]
    decide
  · obtain ⟨h, hh, hnone⟩ := hmiss
    refine ⟨h, hh, ?_⟩
    have hassoc : (build ++ ["src", h] : Path) = (build ++ ["src"]) ++ [h] :=
      (List.append_assoc build ["src"] [h]).symm
    rw [hassoc] at hnone
    have hb1 := fileContent_eq_of_files_eq _ _ (mkdirParents_ok _ _ _ h1).2.1
      ((build ++ ["src"]) ++ [h])
    have hb2 := fileContent_eq_of_files_eq _ _ (mkdirParents_ok _ _ _ h2).2.1
      ((build ++ ["src"]) ++ [h])
    have hb3 := fileContent_eq_of_files_eq _ _ (mkdirParents_ok _ _ _ h3).2.1
      ((build ++ ["src"]) ++ [h])
    have hq4 : ∀ m : String,
        ((build ++ ["src"]) ++ [h] : Path) ≠ (dist ++ ["doc"]) ++ [m] := by
      intro m
      refine ne_concat_of_dropLast_ne ?_
      rw [List.dropLast_concat]
      refine ne_of_getLast?_ne ?_
      rw [List.getLast?_concat, List.getLast?_concat]
      decide
    have hq5 : ∀ m : String,
        ((build ++ ["src"]) ++ [h] : Path) ≠ (dist ++ ["bin"]) ++ [m] := by
      intro m
      refine ne_concat_of_dropLast_ne ?_
      rw [List.dropLast_concat]
      refine ne_of_getLast?_ne ?_
      rw [List.getLast?_concat, List.getLast?_concat]
      decide
    have hb4 := copyMatching_content_outside _ _ _ _ _ h4
      ((build ++ ["src"]) ++ [h]) hq4
    have hb5 := copyMatching_content_outside _ _ _ _ _ h5
      ((build ++ ["src"]) ++ [h]) hq5
    have hb6 := copyMatching_content_outside _ _ _ _ _ h6
      ((build ++ ["src"]) ++ [h]) hq5
    rw [hb6, hb5, hb4, hb3, hb2, hb1]
    exact hnone

/-- C3 witness: packaging an empty build tree (every header missing)
fails. -/
theorem create_distribution_missing_header_witness :
    (create_distribution fsEmpty build_directory distribution_directory).isOk
      = false :=
  create_distribution_missing_header fsEmpty build_directory
    distribution_directory ⟨"luaconf.h", by decide, by decide⟩

/-- C6 counterexample: packaging does not copy every file under the
build tree's doc directory: on a build tree whose doc directory holds a
file named README (no dot, so the doc glob pattern misses it),
`create_distribution` succeeds yet the distribution's doc directory
does not contain README. -/
theorem create_distribution_doc_cex :
    fileContent sampleBuildFS (build_directory ++ ["doc", "README"])
      = some ("readme")
    ∧ (create_distribution sampleBuildFS build_directory
        distribution_directory).toOption.map
        (fun f => fileContent f (distribution_directory ++ ["doc", "README"]))
      = some none :=
  ⟨by decide, by decide⟩

/-- C6 (amended): packaging copies into the distribution's doc
directory exactly those files directly inside the build tree's doc
directory whose names match the glob pattern star-dot-star, i.e.
contain a dot: such a file's content appears at the corresponding
distribution path, while a doc file whose name has no dot is not
copied (its distribution path stays absent). -/
theorem create_distribution_doc_glob (fs fs' : FS) (build dist : Path)
    (hnd : (fs.files.map Prod.fst).Nodup)
    (hok : create_distribution fs build dist = .ok fs') (n : String) :
    (∀ c, matchDotAny n = true →
      fileContent fs (build ++ ["doc", n]) = some c →
      fileContent fs' (dist ++ ["doc", n]) = some c)
    ∧ (matchDotAny n = false →
      fileContent fs (dist ++ ["doc", n]) = none →
      fileContent fs' (dist ++ ["doc", n]) = none) := by
  unfold create_distribution at hok
  split at hok
  next e h1 => cases hok
  next fs1 h1 =>
  split at hok
  next e h2 => cases hok
  next fs2 h2 =>
  split at hok
  next e h3 => cases hok
  next fs3 h3 =>
  split at hok
  next e h4 => cases hok
  next fs4 h4 =>
  split at hok
  next e h5 => cases hok
  next fs5 h5 =>
  split at hok
  next e h6 => cases hok
  next fs6 h6 =>
  obtain ⟨-, hfs4⟩ := copyMatching_ok _ _ _ _ _ h4
  subst hfs4
  have hf1 := (mkdirParents_ok _ _ _ h1).2.1
  have hf2 := (mkdirParents_ok _ _ _ h2).2.1
  have hf3 := (mkdirParents_ok _ _ _ h3).2.1
  have hfs3 : ∀ q, fileContent fs3 q = fileContent fs q := fun q => by
    rw [fileContent_eq_of_files_eq _ _ hf3 q,
      fileContent_eq_of_files_eq _ _ hf2 q,
      fileContent_eq_of_files_eq _ _ hf1 q]
  have hnd3 : (fs3.files.map Prod.fst).Nodup := by
    rw [hf3, hf2, hf1]
    exact hnd
  have hqbin : ∀ m : String,
      ((dist ++ ["doc"]) ++ [n] : Path) ≠ (dist ++ ["bin"]) ++ [m] := by
    intro m
    refine ne_concat_of_dropLast_ne ?_
    rw [List.dropLast_concat]
    refine ne_of_getLast?_ne ?_
    rw [List.getLast?_concat, List.getLast?_concat]
    decide
  have hqinc : ∀ x ∈ headerFiles,
      ((dist ++ ["doc"]) ++ [n] : Path) ≠ (dist ++ ["include"]) ++ [x] := by
    intro x _
    refine ne_concat_of_dropLast_ne ?_
    rw [List.dropLast_concat]
    refine ne_of_getLast?_ne ?_
    rw [List.getLast?_concat, List.getLast?_concat]
    decide
  have hassocd : (dist ++ ["doc", n] : Path) = (dist ++ ["doc"]) ++ [n] :=
    (List.append_assoc dist ["doc"] [n]).symm
  have hlater : ∀ v : Option String,
      fileContent (((childFiles fs3 (build ++ ["doc"])).filter
          (fun e => matchDotAny e.1)).foldl
        (fun a e => writeFile a ((dist ++ ["doc"]) ++ [e.1]) e.2) fs3)
        ((dist ++ ["doc"]) ++ [n]) = v →
      fileContent fs' ((dist ++ ["doc"]) ++ [n]) = v := by
    intro v hv
    rw [copyHeaders_ok_content _ _ _ _ _ _ hok hqinc,
      copyMatching_content_outside _ _ _ _ _ h6 _ hqbin,
      copyMatching_content_outside _ _ _ _ _ h5 _ hqbin]
    exact hv
  constructor
  · intro c hm hc
    have hc3 : fileContent fs3 ((build ++ ["doc"]) ++ [n]) = some c := by
      rw [hfs3]
      rw [show ((build ++ ["doc"]) ++ [n] : Path) = build ++ ["doc", n] from
        List.append_assoc build ["doc"] [n]]
      exact hc
    have hmem : (n, c) ∈ childFiles fs3 (build ++ ["doc"]) :=
      mem_childFiles_of_fileContent _ _ _ _ hc3
    have hmemf : (n, c) ∈ (childFiles fs3 (build ++ ["doc"])).filter
        (fun e => matchDotAny e.1) :=
      List.mem_filter.mpr ⟨hmem, hm⟩
    have hndall := childFiles_names_nodup fs3 (build ++ ["doc"]) hnd3
    have hndf : (((childFiles fs3 (build ++ ["doc"])).filter
        (fun e => matchDotAny e.1)).map Prod.fst).Nodup :=
      List.Nodup.sublist ((List.filter_sublist _).map Prod.fst) hndall
    rw [hassocd]
    exact hlater (some c)
      (foldl_write_content_mem _ _ n c hndf hmemf fs3)
  · intro hm h0
    have h03 : fileContent fs3 ((dist ++ ["doc"]) ++ [n]) = none := by
      rw [hfs3]
      rw [show ((dist ++ ["doc"]) ++ [n] : Path) = dist ++ ["doc", n] from
        List.append_assoc dist ["doc"] [n]]
      exact h0
    rw [hassocd]
    refine hlater none ?_
    rw [foldl_write_content_notin _ _ _ ?_ fs3]
    · exact h03
    · intro e he hcontra
      have he1 : matchDotAny e.1 = true := (List.mem_filter.mp he).2
      have : n = e.1 := by simpa using hcontra
      rw [this, he1] at hm
      cases hm

/-- C6 amended-claim witness: on the sample build tree the dotted doc
file manual.html is copied into the distribution's doc directory. -/
theorem create_distribution_doc_glob_witness :
    (create_distribution sampleBuildFS build_directory
        distribution_directory).toOption.map
      (fun f => fileContent f
        (distribution_directory ++ ["doc", "manual.html"]))
      = some (some "man") := by
  cases hok : create_distribution sampleBuildFS build_directory
      distribution_directory with
  | error e =>
    have hok2 : (create_distribution sampleBuildFS build_directory
        distribution_directory).isOk = true := by decide
    rw [hok] at hok2
    cases hok2
  | ok fs' =>
    have h := (create_distribution_doc_glob sampleBuildFS fs' build_directory
      distribution_directory (by decide) hok "manual.html").1 "man"
      (by decide) (by decide)
    show some (fileContent fs'
      (distribution_directory ++ ["doc", "manual.html"])) = some (some "man")
    rw [h]

/-- C10: `create_distribution` insists on fresh doc, bin and include
subdirectories: if any of them already exists (mkdir with exist_ok set
to false) it fails, and in particular running it twice in a row fails
the second time; packaging is idempotent only as the combined
clean-then-create stage, which succeeds again over a previously
populated distribution tree. -/
theorem create_distribution_fresh_only (fs : FS) (build dist : Path) :
    ((pathExists fs (dist ++ ["doc"]) = true
        ∨ pathExists fs (dist ++ ["bin"]) = true
        ∨ pathExists fs (dist ++ ["include"]) = true) →
      (create_distribution fs build dist).isOk = false)
    ∧ (∀ fs', create_distribution fs build dist = .ok fs' →
        (create_distribution fs' build dist).isOk = false)
    ∧ (build ≠ [] → dist ≠ [] → build.head? ≠ dist.head? →
        dirExists fs dist = true →
        ((childDirs fs (build ++ ["doc"])).filter matchDotAny).isEmpty = true →
        ((childDirs fs (build ++ ["src"])).filter (matchExt exePat)).isEmpty
          = true →
        ((childDirs fs (build ++ ["src"])).filter (matchExt dllPat)).isEmpty
          = true →
        (∀ h ∈ headerFiles,
          (fileContent fs (build ++ ["src", h])).isSome = true) →
        ∃ fscl, clean_distribution fs dist = .ok fscl
          ∧ (create_distribution fscl build dist).isOk = true) := by
  refine ⟨?_, ?_, ?_⟩
  · rintro (hdoc | hbin | hinc)
    · have e1 : mkdirParents fs (dist ++ ["doc"])
          = .error (.alreadyExists (dist ++ ["doc"])) := by
        unfold mkdirParents
        rw [if_pos hdoc]
      simp only [create_distribution, e1]
      rfl
    · cases hpe1 : pathExists fs (dist ++ ["doc"]) with
      | true =>
        have e1 : mkdirParents fs (dist ++ ["doc"])
            = .error (.alreadyExists (dist ++ ["doc"])) := by
          unfold mkdirParents
          rw [if_pos hpe1]
        simp only [create_distribution, e1]
        rfl
      | false =>
        obtain ⟨fs1, e1⟩ : ∃ fs1, mkdirParents fs (dist ++ ["doc"]) = .ok fs1 :=
          ⟨_, mkdirParents_ok_of_fresh fs _ hpe1⟩
        have hbin1 := pathExists_mkdir_mono fs fs1 _ _ e1 hbin
        have e2 : mkdirParents fs1 (dist ++ ["bin"])
            = .error (.alreadyExists (dist ++ ["bin"])) := by
          unfold mkdirParents
          rw [if_pos hbin1]
        simp only [create_distribution, e1, e2]
        rfl
    · cases hpe1 : pathExists fs (dist ++ ["doc"]) with
      | true =>
        have e1 : mkdirParents fs (dist ++ ["doc"])
            = .error (.alreadyExists (dist ++ ["doc"])) := by
          unfold mkdirParents
          rw [if_pos hpe1]
        simp only [create_distribution, e1]
        rfl
      | false =>
        obtain ⟨fs1, e1⟩ : ∃ fs1, mkdirParents fs (dist ++ ["doc"]) = .ok fs1 :=
          ⟨_, mkdirParents_ok_of_fresh fs _ hpe1⟩
        have hinc1 := pathExists_mkdir_mono fs fs1 _ _ e1 hinc
        cases hpe2 : pathExists fs1 (dist ++ ["bin"]) with
        | true =>
          have e2 : mkdirParents fs1 (dist ++ ["bin"])
              = .error (.alreadyExists (dist ++ ["bin"])) := by
            unfold mkdirParents
            rw [if_pos hpe2]
          simp only [create_distribution, e1, e2]
          rfl
        | false =>
          obtain ⟨fs2, e2⟩ : ∃ fs2,
              mkdirParents fs1 (dist ++ ["bin"]) = .ok fs2 :=
            ⟨_, mkdirParents_ok_of_fresh fs1 _ hpe2⟩
          have hinc2 := pathExists_mkdir_mono fs1 fs2 _ _ e2 hinc1
          have e3 : mkdirParents fs2 (dist ++ ["include"])
              = .error (.alreadyExists (dist ++ ["include"])) := by
            unfold mkdirParents
            rw [if_pos hinc2]
          simp only [create_distribution, e1, e2, e3]
          rfl
  · intro fs' hok
    have hdoc' : dirExists fs' (dist ++ ["doc"]) = true := by
      unfold create_distribution at hok
      split at hok
      next e h1 => cases hok
      next fs1 h1 =>
      split at hok
      next e h2 => cases hok
      next fs2 h2 =>
      split at hok
      next e h3 => cases hok
      next fs3 h3 =>
      split at hok
      next e h4 => cases hok
      next fs4 h4 =>
      split at hok
      next e h5 => cases hok
      next fs5 h5 =>
      split at hok
      next e h6 => cases hok
      next fs6 h6 =>
      have d1 : dirExists fs1 (dist ++ ["doc"]) = true :=
        mkdir_ok_self_mem _ _ _ (by simp) h1
      have d2 := dirExists_mkdir_mono _ _ _ _ h2 d1
      have d3 := dirExists_mkdir_mono _ _ _ _ h3 d2
      have d4 : dirExists fs4 (dist ++ ["doc"]) = true := by
        rw [dirExists_eq_of_dirs_eq _ _ (copyMatching_dirs _ _ _ _ _ h4)]
        exact d3
      have d5 : dirExists fs5 (dist ++ ["doc"]) = true := by
        rw [dirExists_eq_of_dirs_eq _ _ (copyMatching_dirs _ _ _ _ _ h5)]
        exact d4
      have d6 : dirExists fs6 (dist ++ ["doc"]) = true := by
        rw [dirExists_eq_of_dirs_eq _ _ (copyMatching_dirs _ _ _ _ _ h6)]
        exact d5
      rw [dirExists_eq_of_dirs_eq _ _ (copyHeaders_dirs _ _ _ _ _ hok)]
      exact d6
    have hpe' : pathExists fs' (dist ++ ["doc"]) = true := by
      unfold pathExists
      rw [hdoc']
      simp
    have e1' : mkdirParents fs' (dist ++ ["doc"])
        = .error (.alreadyExists (dist ++ ["doc"])) := by
      unfold mkdirParents
      rw [if_pos hpe']
    simp only [create_distribution, e1']
    rfl
  · intro hb hd hne hdd hdoc hexe hdll hhead
    have hpe : pathExists fs dist = true := by
      unfold pathExists
      rw [hdd]
      simp
    refine ⟨rmtree fs dist, by
      unfold clean_distribution
      rw [if_pos hpe, if_pos hdd], ?_⟩
    have hbq : ∀ y : String, ((build ++ [y] : Path)).head? ≠ dist.head? := by
      intro y
      rw [head?_append_ne_nil build [y] hb]
      exact hne
    have hbqn : ∀ y : String, (build ++ [y] : Path) ≠ [] := by
      intro y
      simp
    have hpe1 : pathExists (rmtree fs dist) (dist ++ ["doc"]) = false :=
      pathExists_false_of _ _
        (fileExists_false_of_content _ _ (rmtree_wipes fs dist ["doc"]).1)
        (rmtree_wipes fs dist ["doc"]).2
    obtain ⟨fs1, e1, hf1, hdr1⟩ : ∃ fs1,
        mkdirParents (rmtree fs dist) (dist ++ ["doc"]) = .ok fs1
        ∧ fs1.files = (rmtree fs dist).files
        ∧ fs1.dirs = (dist ++ ["doc"]).inits.filter (fun d => !(d.isEmpty))
            ++ (rmtree fs dist).dirs :=
      ⟨_, mkdirParents_ok_of_fresh _ _ hpe1, rfl, rfl⟩
    have hde2 : dirExists fs1 (dist ++ ["bin"]) = false := by
      cases hx : dirExists fs1 (dist ++ ["bin"]) with
      | false => rfl
      | true =>
        exfalso
        unfold dirExists at hx
        rw [hdr1] at hx
        simp only [decide_eq_true_eq, List.mem_append] at hx
        rcases hx with hmem | hmem
        · exact not_mem_mkdir_inits dist "doc" "bin" (by decide) hmem
        · have h2 : dirExists (rmtree fs dist) (dist ++ ["bin"]) = true := by
            unfold dirExists
            simpa using hmem
          rw [(rmtree_wipes fs dist ["bin"]).2] at h2
          cases h2
    have hpe2 : pathExists fs1 (dist ++ ["bin"]) = false :=
      pathExists_false_of _ _
        (fileExists_false_of_content _ _ (by
          rw [fileContent_eq_of_files_eq _ _ hf1]
          exact (rmtree_wipes fs dist ["bin"]).1)) hde2
    obtain ⟨fs2, e2, hf2, hdr2⟩ : ∃ fs2,
        mkdirParents fs1 (dist ++ ["bin"]) = .ok fs2
        ∧ fs2.files = fs1.files
        ∧ fs2.dirs = (dist ++ ["bin"]).inits.filter (fun d => !(d.isEmpty))
            ++ fs1.dirs :=
      ⟨_, mkdirParents_ok_of_fresh _ _ hpe2, rfl, rfl⟩
    have hde3 : dirExists fs2 (dist ++ ["include"]) = false := by
      cases hx : dirExists fs2 (dist ++ ["include"]) with
      | false => rfl
      | true =>
        exfalso
        unfold dirExists at hx
        rw [hdr2, hdr1] at hx
        simp only [decide_eq_true_eq, List.mem_append] at hx
        rcases hx with hmem | hmem | hmem
        · exact not_mem_mkdir_inits dist "bin" "include" (by decide) hmem
        · exact not_mem_mkdir_inits dist "doc" "include" (by decide) hmem
        · have h2 : dirExists (rmtree fs dist) (dist ++ ["include"]) = true := by
            unfold dirExists
            simpa using hmem
          rw [(rmtree_wipes fs dist ["include"]).2] at h2
          cases h2
    have hpe3 : pathExists fs2 (dist ++ ["include"]) = false :=
      pathExists_false_of _ _
        (fileExists_false_of_content _ _ (by
          rw [fileContent_eq_of_files_eq _ _ hf2,
            fileContent_eq_of_files_eq _ _ hf1]
          exact (rmtree_wipes fs dist ["include"]).1)) hde3
    obtain ⟨fs3, e3, hf3, hdr3⟩ : ∃ fs3,
        mkdirParents fs2 (dist ++ ["include"]) = .ok fs3
        ∧ fs3.files = fs2.files
        ∧ fs3.dirs = (dist ++ ["include"]).inits.filter (fun d => !(d.isEmpty))
            ++ fs2.dirs :=
      ⟨_, mkdirParents_ok_of_fresh _ _ hpe3, rfl, rfl⟩
    have hfs3 : ∀ q : Path, q.head? ≠ dist.head? →
        fileContent fs3 q = fileContent fs q := by
      intro q hq
      rw [fileContent_eq_of_files_eq _ _ hf3,
        fileContent_eq_of_files_eq _ _ hf2,
        fileContent_eq_of_files_eq _ _ hf1,
        fileContent_rmtree,
        pfx_false_of_head_ne dist q hd (fun hh => hq hh.symm)]
      rfl
    have hcd3 : ∀ y : String,
        childDirs fs3 (build ++ [y]) = childDirs fs (build ++ [y]) := by
      intro y
      unfold childDirs
      rw [hdr3, hdr2, hdr1]
      rw [filterMap_nameUnder_inits _ dist "include" _ hd (hbqn y) (hbq y),
        filterMap_nameUnder_inits _ dist "bin" _ hd (hbqn y) (hbq y),
        filterMap_nameUnder_inits _ dist "doc" _ hd (hbqn y) (hbq y)]
      have h5 := childDirs_rmtree_of_head_ne fs dist (build ++ [y]) hd
        (hbqn y) (hbq y)
      unfold childDirs at h5
      exact h5
    have e4cond : ((childDirs fs3 (build ++ ["doc"])).filter
        matchDotAny).isEmpty = true := by
      rw [hcd3 "doc"]
      exact hdoc
    obtain ⟨fs4, e4, hdr4, hc4⟩ : ∃ fs4,
        copyMatching fs3 (build ++ ["doc"]) (dist ++ ["doc"]) matchDotAny
          = .ok fs4
        ∧ fs4.dirs = fs3.dirs
        ∧ (∀ q : Path, q.head? ≠ dist.head? →
            fileContent fs4 q = fileContent fs3 q) :=
      ⟨_, copyMatching_ok_of_no_dirs _ _ _ _ e4cond, foldl_write_dirs _ _ _,
        fun q hq => foldl_write_content_head_ne _ dist "doc" q hd hq fs3⟩
    have e5cond : ((childDirs fs4 (build ++ ["src"])).filter
        (matchExt exePat)).isEmpty = true := by
      rw [childDirs_eq_of_dirs_eq _ _ hdr4, hcd3 "src"]
      exact hexe
    obtain ⟨fs5, e5, hdr5, hc5⟩ : ∃ fs5,
        copyMatching fs4 (build ++ ["src"]) (dist ++ ["bin"]) (matchExt exePat)
          = .ok fs5
        ∧ fs5.dirs = fs4.dirs
        ∧ (∀ q : Path, q.head? ≠ dist.head? →
            fileContent fs5 q = fileContent fs4 q) :=
      ⟨_, copyMatching_ok_of_no_dirs _ _ _ _ e5cond, foldl_write_dirs _ _ _,
        fun q hq => foldl_write_content_head_ne _ dist "bin" q hd hq fs4⟩
    have e6cond : ((childDirs fs5 (build ++ ["src"])).filter
        (matchExt dllPat)).isEmpty = true := by
      rw [childDirs_eq_of_dirs_eq _ _ hdr5,
        childDirs_eq_of_dirs_eq _ _ hdr4, hcd3 "src"]
      exact hdll
    obtain ⟨fs6, e6, hc6⟩ : ∃ fs6,
        copyMatching fs5 (build ++ ["src"]) (dist ++ ["bin"]) (matchExt dllPat)
          = .ok fs6
        ∧ (∀ q : Path, q.head? ≠ dist.head? →
            fileContent fs6 q = fileContent fs5 q) :=
      ⟨_, copyMatching_ok_of_no_dirs _ _ _ _ e6cond,
        fun q hq => foldl_write_content_head_ne _ dist "bin" q hd hq fs5⟩
    have hpres : ∀ x ∈ headerFiles,
        (fileContent fs6 ((build ++ ["src"]) ++ [x])).isSome = true := by
      intro x hx
      have hq : ((build ++ ["src"]) ++ [x] : Path).head? ≠ dist.head? := by
        rw [head?_append_ne_nil (build ++ ["src"]) [x] (by simp),
          head?_append_ne_nil build ["src"] hb]
        exact hne
      rw [hc6 _ hq, hc5 _ hq, hc4 _ hq, hfs3 _ hq]
      rw [show ((build ++ ["src"]) ++ [x] : Path) = build ++ ["src", x] from
        List.append_assoc build ["src"] [x]]
      exact hhead x hx
    have e7 : (copyHeaders (build ++ ["src"]) (dist ++ ["include"]) fs6
        headerFiles).isOk = true := by
      apply copyHeaders_ok_of_present
      · refine ne_of_getLast?_ne ?_
        rw [List.getLast?_concat, List.getLast?_concat]
        decide
      · exact hpres
    simp only [create_distribution, e1, e2, e3, e4, e5, e6]
    exact e7

/-- C10 witness: on a stale populated distribution tree create fails
outright; on a fresh tree create succeeds once and fails the second
time; clean-then-create succeeds over the stale tree. -/
theorem create_distribution_fresh_only_witness :
    (create_distribution fsRepack build_directory
        distribution_directory).isOk = false
    ∧ (∃ fs', create_distribution sampleBuildFS build_directory
          distribution_directory = .ok fs'
        ∧ (create_distribution fs' build_directory
            distribution_directory).isOk = false)
    ∧ (∃ fscl, clean_distribution fsRepack distribution_directory = .ok fscl
        ∧ (create_distribution fscl build_directory
            distribution_directory).isOk = true) := by
  refine ⟨(create_distribution_fresh_only fsRepack build_directory
      distribution_directory).1 (Or.inl (by decide)), ?_, ?_⟩
  · cases hok : create_distribution sampleBuildFS build_directory
        distribution_directory with
    | error e =>
      exfalso
      have h2 : (create_distribution sampleBuildFS build_directory
          distribution_directory).isOk = true := by decide
      rw [hok] at h2
      cases h2
    | ok fs' =>
      exact ⟨fs', rfl, (create_distribution_fresh_only sampleBuildFS
        build_directory distribution_directory).2.1 fs' hok⟩
  · exact (create_distribution_fresh_only fsRepack build_directory
      distribution_directory).2.2 (by decide) (by decide) (by decide)
      (by decide) (by decide) (by decide) (by decide) (by decide)

end LuaBuild
